import Mathlib

/-!
# Verification of the `atomik` generic atomic cell

Shallow embedding of the crate's core (`src/lib.rs`, `src/ops.rs`).

Modelling choices:
* A value of an eligible type `T` is represented by its bit pattern, a
  natural number below `2 ^ (8 * size_of T)`.  The `transmute_copy`
  reinterpretations in `ops.rs` preserve bit patterns exactly, so they are
  the identity on this representation.
* The native fixed-width atomics of `core::sync::atomic` (the collaborators
  the crate delegates to) are modelled by `nativeLoad`, `nativeStore`,
  `nativeSwap`, `nativeCompareExchange`, `nativeFetchAdd`, `nativeFetchSub`
  with their documented semantics: panics on invalid orderings are `none`,
  stores truncate to the width's bit size (wraparound two's-complement /
  unsigned modulo arithmetic).
* Single-threaded execution: the cell's state is threaded explicitly; each
  operation maps a state to a result and a successor state.
* `compare_exchange_weak` takes an explicit Boolean telling whether the
  hardware spuriously fails this attempt; `fetch_update` takes a finite
  list of such Booleans (one per CAS attempt) and returns `none` when the
  schedule runs out before the loop exits.
-/

namespace Atomik

/-- Model of `core::sync::atomic::Ordering`, re-exported by `lib.rs`. -/
inductive MemOrdering where
  | Relaxed
  | Release
  | Acquire
  | AcqRel
  | SeqCst
deriving DecidableEq, Repr

/-- The supported native atomic widths (`u8`/`u16`/`u32`/`u64`). -/
inductive Width where
  | w8
  | w16
  | w32
  | w64
deriving DecidableEq, Repr

/-- Model of `size_of` of the native atomic integer of a width, in bytes. -/
def Width.bytes : Width → Nat
  | .w8 => 1
  | .w16 => 2
  | .w32 => 4
  | .w64 => 8

/-- Bit size of a width. -/
def Width.bits (w : Width) : Nat := 8 * w.bytes

/-- Model of `align_of` of the native atomic integer of a width
(`align_of::<uN>() = size_of::<uN>()` on the targets the crate supports). -/
def Width.nativeAlign (w : Width) : Nat := w.bytes

/-- Compile-time layout data of a Rust type `T`:
`mem::size_of::<T>()` and `mem::align_of::<T>()`. -/
structure Layout where
  size : Nat
  align : Nat
deriving DecidableEq, Repr

/-! ## Native atomic primitives (`core::sync::atomic::AtomicUN`)

These model the standard-library atomics that `ops.rs` delegates to.
A result of `none` models a panic.
-/

/-- Model of `AtomicUN::load`: panics if the ordering is `Release` or `AcqRel`,
otherwise returns the stored bit pattern. -/
def nativeLoad (w : Width) (st : Nat) (order : MemOrdering) : Option Nat :=
  if order = .Release ∨ order = .AcqRel then none
  else some (st % 2 ^ w.bits)

/-- Model of `AtomicUN::store`: panics if the ordering is `Acquire` or `AcqRel`,
otherwise the new state is the stored value's bit pattern. -/
def nativeStore (w : Width) (st val : Nat) (order : MemOrdering) : Option Nat :=
  if order = .Acquire ∨ order = .AcqRel then none
  else some (val % 2 ^ w.bits)

/-- Model of `AtomicUN::swap`: accepts every ordering; returns the previous bit
pattern and stores the new one. -/
def nativeSwap (w : Width) (st val : Nat) (order : MemOrdering) : Nat × Nat :=
  (st % 2 ^ w.bits, val % 2 ^ w.bits)

/-- Model of `AtomicUN::compare_exchange`: panics if the failure ordering is
`Release` or `AcqRel`; otherwise compares the stored bit pattern with
`current` and on a match stores `new` and succeeds with the previous value,
else fails with the actual value leaving the state unchanged. -/
def nativeCompareExchange (w : Width) (st current new : Nat)
    (ok err : MemOrdering) : Option (Except Nat Nat × Nat) :=
  if err = .Release ∨ err = .AcqRel then none
  else if st % 2 ^ w.bits = current % 2 ^ w.bits then
    some (.ok (st % 2 ^ w.bits), new % 2 ^ w.bits)
  else
    some (.error (st % 2 ^ w.bits), st % 2 ^ w.bits)

/-- Model of `AtomicUN::compare_exchange_weak`: as `compare_exchange` but may
spuriously fail; `sp = true` means the hardware aborts this attempt, which
reports failure with the actual value and leaves the state unchanged. -/
def nativeCompareExchangeWeak (w : Width) (sp : Bool) (st current new : Nat)
    (ok err : MemOrdering) : Option (Except Nat Nat × Nat) :=
  if err = .Release ∨ err = .AcqRel then none
  else if sp then some (.error (st % 2 ^ w.bits), st % 2 ^ w.bits)
  else if st % 2 ^ w.bits = current % 2 ^ w.bits then
    some (.ok (st % 2 ^ w.bits), new % 2 ^ w.bits)
  else
    some (.error (st % 2 ^ w.bits), st % 2 ^ w.bits)

/-- Model of `AtomicUN::fetch_add`: wrapping add at the width's bit size; returns the
previous value; accepts every ordering. -/
def nativeFetchAdd (w : Width) (st val : Nat) (order : MemOrdering) : Nat × Nat :=
  (st % 2 ^ w.bits, (st + val) % 2 ^ w.bits)

/-- Model of `AtomicUN::fetch_sub`: wrapping subtract at the width's bit size;
returns the previous value; accepts every ordering. -/
def nativeFetchSub (w : Width) (st val : Nat) (order : MemOrdering) : Nat × Nat :=
  (st % 2 ^ w.bits, (st + (2 ^ w.bits - val % 2 ^ w.bits)) % 2 ^ w.bits)

/-! ## `ops.rs`: width-specialised operation modules

Each `ops::uN::atomic_*` function transmutes `T` to `uN`, calls the native
atomic and transmutes back; on bit patterns both transmutes are the
identity, so each function coincides with the native one at its width.
-/

/-- Model of `ops::uN::atomic_load`. -/
def atomic_load (w : Width) (st : Nat) (order : MemOrdering) : Option Nat :=
  nativeLoad w st order

/-- Model of `ops::uN::atomic_store`. -/
def atomic_store (w : Width) (st val : Nat) (order : MemOrdering) : Option Nat :=
  nativeStore w st val order

/-- Model of `ops::uN::atomic_swap`. -/
def atomic_swap (w : Width) (st val : Nat) (order : MemOrdering) : Nat × Nat :=
  nativeSwap w st val order

/-- Model of `ops::uN::atomic_compare_exchange` (the `map_result` variant transmute
is again the identity on bit patterns). -/
def atomic_compare_exchange (w : Width) (st current new : Nat)
    (ok err : MemOrdering) : Option (Except Nat Nat × Nat) :=
  nativeCompareExchange w st current new ok err

/-- Model of `ops::uN::atomic_compare_exchange_weak`. -/
def atomic_compare_exchange_weak (w : Width) (sp : Bool) (st current new : Nat)
    (ok err : MemOrdering) : Option (Except Nat Nat × Nat) :=
  nativeCompareExchangeWeak w sp st current new ok err

/-! ## `lib.rs`: compile-time dispatch -/

/-- The `match_size_arm!` macro: match `size_of::<T>()` against the
supported widths, guarded by `align_of::<T>() >= align_of::<uN>()`; any
unmatched case is `unimplemented!()` in const context, i.e. a build-time
failure, modelled as `none`. -/
def match_size_arm (L : Layout) : Option Width :=
  if L.size = 1 ∧ Width.nativeAlign .w8 ≤ L.align then some .w8
  else if L.size = 2 ∧ Width.nativeAlign .w16 ≤ L.align then some .w16
  else if L.size = 4 ∧ Width.nativeAlign .w32 ≤ L.align then some .w32
  else if L.size = 8 ∧ Width.nativeAlign .w64 ≤ L.align then some .w64
  else none

/-- The associated constant `Atomic::<T>::TYPE_SIZE`: evaluates to the size
after asserting it is positive; the assertion failure is a const-eval
(build-time) error, modelled as `none`. -/
def TYPE_SIZE (L : Layout) : Option Nat :=
  if 0 < L.size then some L.size else none

/-- The `Atomic<T>` cell: a `repr(transparent)` wrapper around an
`UnsafeCell<T>` holding one bit pattern. -/
structure AtomicCell where
  state : Nat
deriving DecidableEq, Repr

/-- Model of `Atomic::<T>::LOAD`: the load function pointer resolved at build time
by `match_size_arm!(Self::TYPE_SIZE => atomic_load on T)`; `none` models a
const-eval (build-time) failure. -/
def Atomic.LOAD (L : Layout) : Option (Nat → MemOrdering → Option Nat) :=
  match TYPE_SIZE L with
  | none => none
  | some _ => (match_size_arm L).map (fun w => atomic_load w)

/-- Model of `Atomic::<T>::STORE`. -/
def Atomic.STORE (L : Layout) : Option (Nat → Nat → MemOrdering → Option Nat) :=
  match TYPE_SIZE L with
  | none => none
  | some _ => (match_size_arm L).map (fun w => atomic_store w)

/-- Model of `Atomic::<T>::SWAP`. -/
def Atomic.SWAP (L : Layout) : Option (Nat → Nat → MemOrdering → Nat × Nat) :=
  match TYPE_SIZE L with
  | none => none
  | some _ => (match_size_arm L).map (fun w => atomic_swap w)

/-- Model of `Atomic::<T>::CMP_EX`. -/
def Atomic.CMP_EX (L : Layout) :
    Option (Nat → Nat → Nat → MemOrdering → MemOrdering →
      Option (Except Nat Nat × Nat)) :=
  match TYPE_SIZE L with
  | none => none
  | some _ => (match_size_arm L).map (fun w => atomic_compare_exchange w)

/-- Model of `Atomic::<T>::CMP_EX_WEAK`. -/
def Atomic.CMP_EX_WEAK (L : Layout) :
    Option (Bool → Nat → Nat → Nat → MemOrdering → MemOrdering →
      Option (Except Nat Nat × Nat)) :=
  match TYPE_SIZE L with
  | none => none
  | some _ => (match_size_arm L).map (fun w => atomic_compare_exchange_weak w)

/-- Model of `Atomic::<T>::new(value)`: forces const evaluation of `TYPE_SIZE`
(build-time failure when `size_of::<T>() = 0`) and checks
`debug_assert!(TYPE_SIZE <= mem::size_of::<u64>())` (modelled as an active
check, its strictest reading; in release builds it is compiled out).
It performs no width or alignment dispatch of its own. -/
def Atomic.new? (L : Layout) (v : Nat) : Option AtomicCell :=
  match TYPE_SIZE L with
  | none => none
  | some sz => if sz ≤ 8 then some ⟨v⟩ else none

/-- Model of `impl<T: Default> Default for Atomic<T>`: `Self::new(Default::default())`,
where `d` is the bit pattern of `T::default()`. -/
def Atomic.default? (L : Layout) (d : Nat) : Option AtomicCell :=
  Atomic.new? L d

/-- Model of `Atomic::into_inner`: consumes the cell, returning the contained value. -/
def AtomicCell.into_inner (c : AtomicCell) : Nat :=
  c.state

/-! ## `lib.rs`: generic operations

Each method forwards to the function pointer resolved for `T`'s width `w`;
we pass the resolved width explicitly. -/

/-- Model of `Atomic::load`: `Self::LOAD(self.inner_ptr(), order)`. -/
def Atomic.load (w : Width) (c : AtomicCell) (order : MemOrdering) : Option Nat :=
  atomic_load w c.state order

/-- Model of `Atomic::store`: `Self::STORE(self.inner_ptr(), val, order)`. -/
def Atomic.store (w : Width) (c : AtomicCell) (val : Nat) (order : MemOrdering) :
    Option AtomicCell :=
  (atomic_store w c.state val order).map AtomicCell.mk

/-- Model of `Atomic::swap`: `Self::SWAP(self.inner_ptr(), val, order)`. -/
def Atomic.swap (w : Width) (c : AtomicCell) (val : Nat) (order : MemOrdering) :
    Nat × AtomicCell :=
  let r := atomic_swap w c.state val order
  (r.1, ⟨r.2⟩)

/-- Model of `Atomic::compare_exchange`. -/
def Atomic.compare_exchange (w : Width) (c : AtomicCell) (current new : Nat)
    (success failure : MemOrdering) : Option (Except Nat Nat × AtomicCell) :=
  (atomic_compare_exchange w c.state current new success failure).map
    (fun r => (r.1, ⟨r.2⟩))

/-- Model of `Atomic::compare_exchange_weak` (with the spurious-failure flag of this
attempt made explicit). -/
def Atomic.compare_exchange_weak (w : Width) (sp : Bool) (c : AtomicCell)
    (current new : Nat) (success failure : MemOrdering) :
    Option (Except Nat Nat × AtomicCell) :=
  (atomic_compare_exchange_weak w sp c.state current new success failure).map
    (fun r => (r.1, ⟨r.2⟩))

/-- The `while let` loop of `Atomic::fetch_update`, after the initial load:
`prev` is the loop variable, `sps` assigns each `compare_exchange_weak`
attempt its spurious-failure flag (`none` when the schedule is exhausted
before the loop exits). -/
def Atomic.fetchUpdateGo (w : Width) (set_order fetch_order : MemOrdering)
    (cb : Nat → Option Nat) :
    List Bool → Nat → AtomicCell → Option (Except Nat Nat × AtomicCell)
  | sps, prev, c =>
    match cb prev with
    | none => some (.error prev, c)
    | some next =>
      match sps with
      | [] => none
      | sp :: rest =>
        match Atomic.compare_exchange_weak w sp c prev next set_order fetch_order with
        | none => none
        | some (.ok p, c') => some (.ok p, c')
        | some (.error next_prev, c') =>
          Atomic.fetchUpdateGo w set_order fetch_order cb rest next_prev c'

/-- Model of `Atomic::fetch_update(set_order, fetch_order, cb)`:
`let mut prev = self.load(fetch_order);` then the retry loop. -/
def Atomic.fetch_update (w : Width) (set_order fetch_order : MemOrdering)
    (cb : Nat → Option Nat) (sps : List Bool) (c : AtomicCell) :
    Option (Except Nat Nat × AtomicCell) :=
  match Atomic.load w c fetch_order with
  | none => none
  | some prev => Atomic.fetchUpdateGo w set_order fetch_order cb sps prev c

/-! ## `lib.rs`: integer fetch specialisations (`impl_math_spec!`)

`fetch_add`/`fetch_sub` reinterpret the cell as the native atomic of the
type's width and delegate; on bit patterns this is the native wrapping
operation. -/

/-- Model of `Atomic::<int>::fetch_add`. -/
def Atomic.fetch_add (w : Width) (c : AtomicCell) (val : Nat) (order : MemOrdering) :
    Nat × AtomicCell :=
  let r := nativeFetchAdd w c.state val order
  (r.1, ⟨r.2⟩)

/-- Model of `Atomic::<int>::fetch_sub`. -/
def Atomic.fetch_sub (w : Width) (c : AtomicCell) (val : Nat) (order : MemOrdering) :
    Nat × AtomicCell :=
  let r := nativeFetchSub w c.state val order
  (r.1, ⟨r.2⟩)

/-- Two's-complement reading of a bit pattern at a width: the value of the
signed integer whose representation is `x`. -/
def toSigned (w : Width) (x : Nat) : Int :=
  if x < 2 ^ (w.bits - 1) then (x : Int) else (x : Int) - 2 ^ w.bits

/-! ## Iteration harnesses for the refinement claim

These two definitions follow the spec's words for the equivalence claim:
a sequence of `n` calls to `fetch_update(so, fo, |x| Some(x + 1))` (each
call scheduled with finitely many spurious weak-CAS failures followed by a
clean attempt) against a sequence of `n` calls to `fetch_add(1, o)`; each
records the returned previous values and the final cell. -/

/-- n calls to `fetch_update` with the increment callback; `sch i` is the
spurious-failure schedule of the i-th call. -/
def iterFetchUpdateInc (w : Width) (so fo : MemOrdering)
    (sch : Nat → List Bool) :
    Nat → AtomicCell → Option (List (Except Nat Nat) × AtomicCell)
  | 0, c => some ([], c)
  | n + 1, c =>
    match Atomic.fetch_update w so fo (fun x => some (x + 1)) (sch 0) c with
    | none => none
    | some (r, c') =>
      match iterFetchUpdateInc w so fo (fun i => sch (i + 1)) n c' with
      | none => none
      | some (rs, c'') => some (r :: rs, c'')

/-- n calls to `fetch_add(1, o)`. -/
def iterFetchAddOne (w : Width) (o : MemOrdering) :
    Nat → AtomicCell → List Nat × AtomicCell
  | 0, c => ([], c)
  | n + 1, c =>
    let r := Atomic.fetch_add w c 1 o
    let rest := iterFetchAddOne w o n r.2
    (r.1 :: rest.1, rest.2)

/-! ## Helper lemmas -/

theorem fetchUpdateGo_inc_eval (w : Width) (so fo : MemOrdering) (k : Nat)
    (c : AtomicCell) (hfo : ¬(fo = .Release ∨ fo = .AcqRel))
    (hst : c.state < 2 ^ w.bits) :
    Atomic.fetchUpdateGo w so fo (fun x => some (x + 1))
        (List.replicate k true ++ [false]) c.state c
      = some (.ok c.state, ⟨(c.state + 1) % 2 ^ w.bits⟩) := by
  induction k with
  | zero =>
    rw [List.replicate_zero, List.nil_append, Atomic.fetchUpdateGo]
    simp [Atomic.compare_exchange_weak, atomic_compare_exchange_weak,
      nativeCompareExchangeWeak, hfo, Nat.mod_eq_of_lt hst]
  | succ k ih =>
    rw [List.replicate_succ, List.cons_append, Atomic.fetchUpdateGo]
    simp only [Atomic.compare_exchange_weak, atomic_compare_exchange_weak,
      nativeCompareExchangeWeak, hfo, if_false, if_true, Nat.mod_eq_of_lt hst]
    simpa using ih

theorem fetch_update_inc_eval (w : Width) (so fo : MemOrdering) (k : Nat)
    (c : AtomicCell) (hfo : ¬(fo = .Release ∨ fo = .AcqRel))
    (hst : c.state < 2 ^ w.bits) :
    Atomic.fetch_update w so fo (fun x => some (x + 1))
        (List.replicate k true ++ [false]) c
      = some (.ok c.state, ⟨(c.state + 1) % 2 ^ w.bits⟩) := by
  simp only [Atomic.fetch_update, Atomic.load, atomic_load, nativeLoad, hfo,
    if_false, Nat.mod_eq_of_lt hst]
  exact fetchUpdateGo_inc_eval w so fo k c hfo hst

theorem match_size_arm_eq_some {L : Layout} {w : Width}
    (h : match_size_arm L = some w) :
    L.size = w.bytes ∧ w.nativeAlign ≤ L.align := by
  simp only [match_size_arm] at h
  split_ifs at h with h1 h2 h3 h4 <;>
    simp_all [Width.bytes, Width.nativeAlign] <;>
    simp [← h, Width.bytes, Width.nativeAlign] <;> omega

/-! ## Claims -/

/-- C5: `load` panics (returns `none`) exactly when called with `Release`
or `AcqRel`, accepting only `Relaxed`, `Acquire`, `SeqCst`; `store` panics
exactly when called with `Acquire` or `AcqRel`, accepting only `Relaxed`,
`Release`, `SeqCst`; the failure is unconditional in the stored value,
never a silent downgrade of the ordering. -/
theorem load_store_ordering_contract (w : Width) (c : AtomicCell) (val : Nat)
    (order : MemOrdering) :
    (Atomic.load w c order = none ↔ order = .Release ∨ order = .AcqRel)
    ∧ (Atomic.store w c val order = none ↔ order = .Acquire ∨ order = .AcqRel) := by
  constructor
  · simp only [Atomic.load, atomic_load, nativeLoad]
    split <;> simp_all
  · simp only [Atomic.store, atomic_store, nativeStore]
    split <;> simp_all

/-- C6: for every supported width, every value `v` of the type, every
ordering valid for `store` and every ordering valid for `load`,
`store(v, o)` followed by `load(o')` returns exactly `v`, the exact bit
pattern. -/
theorem store_then_load (w : Width) (c : AtomicCell) (v : Nat)
    (o o' : MemOrdering) (hv : v < 2 ^ w.bits)
    (ho : ¬(o = .Acquire ∨ o = .AcqRel)) (ho' : ¬(o' = .Release ∨ o' = .AcqRel)) :
    (Atomic.store w c v o).bind (fun c' => Atomic.load w c' o') = some v := by
  simp [Atomic.store, atomic_store, nativeStore, Atomic.load, atomic_load,
    nativeLoad, ho, ho', Nat.mod_eq_of_lt hv]

theorem store_then_load_witness :
    (Atomic.store .w8 ⟨0⟩ 42 .Relaxed).bind (fun c' => Atomic.load .w8 c' .SeqCst)
      = some 42 :=
  store_then_load .w8 ⟨0⟩ 42 .Relaxed .SeqCst (by decide) (by decide) (by decide)

/-- C7: for every supported width, every value `v` and every ordering,
`swap(v, o)` returns the value stored immediately before the call and
afterwards the cell holds `v`. -/
theorem swap_spec (w : Width) (c : AtomicCell) (v : Nat) (o : MemOrdering)
    (hst : c.state < 2 ^ w.bits) (hv : v < 2 ^ w.bits) :
    Atomic.swap w c v o = (c.state, ⟨v⟩) := by
  simp [Atomic.swap, atomic_swap, nativeSwap, Nat.mod_eq_of_lt hst,
    Nat.mod_eq_of_lt hv]

theorem swap_spec_witness : Atomic.swap .w8 ⟨1⟩ 5 .Relaxed = (1, ⟨5⟩) :=
  swap_spec .w8 ⟨1⟩ 5 .Relaxed (by decide) (by decide)

/-- C1: `compare_exchange(current, new, success, failure)` returns
`Ok(prev)` with `prev = current` and updates the cell to `new` if and only
if the cell's value at the moment of comparison equals `current`; otherwise
it returns `Err(actual)` with `actual` the cell's current value and the
stored value unchanged. -/
theorem compare_exchange_spec (w : Width) (c : AtomicCell) (current new : Nat)
    (success failure : MemOrdering)
    (hst : c.state < 2 ^ w.bits) (hcur : current < 2 ^ w.bits)
    (hnew : new < 2 ^ w.bits)
    (hfail : ¬(failure = .Release ∨ failure = .AcqRel)) :
    (Atomic.compare_exchange w c current new success failure
        = some (Except.ok current, ⟨new⟩) ↔ c.state = current)
    ∧ (c.state ≠ current →
        Atomic.compare_exchange w c current new success failure
          = some (Except.error c.state, c)) := by
  simp only [Atomic.compare_exchange, atomic_compare_exchange,
    nativeCompareExchange, hfail, if_false, Nat.mod_eq_of_lt hst,
    Nat.mod_eq_of_lt hcur, Nat.mod_eq_of_lt hnew]
  constructor
  · split <;> simp_all
  · intro hne
    split <;> simp_all

theorem compare_exchange_spec_witness :
    Atomic.compare_exchange .w8 ⟨5⟩ 5 10 .Acquire .Relaxed
      = some (Except.ok 5, ⟨10⟩) :=
  ((compare_exchange_spec .w8 ⟨5⟩ 5 10 .Acquire .Relaxed (by decide) (by decide)
    (by decide) (by decide)).1).mpr rfl

/-- C10: for every eligible layout, `Atomic::default()` constructs the cell
holding exactly the bit pattern `d` of `T::default()`, a subsequent `load`
with a valid ordering returns it, and `into_inner` on a freshly constructed
`Atomic::new(v)` returns `v` unchanged. -/
theorem default_new_into_inner_spec (L : Layout) (w : Width) (d v : Nat)
    (o : MemOrdering) (hw : match_size_arm L = some w)
    (ho : ¬(o = .Release ∨ o = .AcqRel)) (hd : d < 2 ^ w.bits) :
    Atomic.default? L d = some ⟨d⟩
    ∧ Atomic.load w ⟨d⟩ o = some d
    ∧ Atomic.new? L v = some ⟨v⟩
    ∧ AtomicCell.into_inner ⟨v⟩ = v := by
  obtain ⟨hsize, _⟩ := match_size_arm_eq_some hw
  have h1 : 0 < L.size := by cases w <;> simp [Width.bytes] at hsize <;> omega
  have h2 : L.size ≤ 8 := by cases w <;> simp [Width.bytes] at hsize <;> omega
  refine ⟨?_, ?_, ?_, rfl⟩
  · simp [Atomic.default?, Atomic.new?, TYPE_SIZE, h1, h2]
  · simp [Atomic.load, atomic_load, nativeLoad, ho, Nat.mod_eq_of_lt hd]
  · simp [Atomic.new?, TYPE_SIZE, h1, h2]

theorem default_new_into_inner_spec_witness :
    Atomic.default? ⟨1, 1⟩ 0 = some ⟨0⟩
    ∧ Atomic.load .w8 ⟨0⟩ .Relaxed = some 0
    ∧ Atomic.new? ⟨1, 1⟩ 9 = some ⟨9⟩
    ∧ AtomicCell.into_inner ⟨9⟩ = 9 :=
  default_new_into_inner_spec ⟨1, 1⟩ .w8 0 9 .Relaxed (by decide) (by decide)
    (by decide)

/-- C2 counterexample: for the layout with size 3 and alignment 1 no width
matches (`match_size_arm` fails at build time), yet `Atomic::new`
constructs an instance: its only checks are size non-zero and size at most
8, so the claim that `new` fails for every unsupported layout is false. -/
theorem new_succeeds_for_unsupported_size :
    match_size_arm ⟨3, 1⟩ = none ∧ Atomic.new? ⟨3, 1⟩ 0 = some ⟨0⟩ := by
  decide

/-- C2 amended: for a layout matching no supported width (size not in
{1,2,4,8} or alignment below the matched width's native alignment), every
operation function-pointer constant (`LOAD`/`STORE`/`SWAP`/`CMP_EX`/
`CMP_EX_WEAK`) fails to resolve at build time, so no runtime panic from
dispatch is reachable on a constructed instance; `Atomic::new` itself
validates only that the size is non-zero and (as a debug assertion) at most
8, and constructs the instance whenever those two checks pass. -/
theorem dispatch_unresolved_for_unsupported_layout (L : Layout) (v : Nat)
    (h : match_size_arm L = none) :
    Atomic.LOAD L = none ∧ Atomic.STORE L = none ∧ Atomic.SWAP L = none
    ∧ Atomic.CMP_EX L = none ∧ Atomic.CMP_EX_WEAK L = none
    ∧ (Atomic.new? L v = some ⟨v⟩ ↔ 0 < L.size ∧ L.size ≤ 8) := by
  refine ⟨?_, ?_, ?_, ?_, ?_, ?_⟩
  · simp only [Atomic.LOAD]
    split <;> simp [h]
  · simp only [Atomic.STORE]
    split <;> simp [h]
  · simp only [Atomic.SWAP]
    split <;> simp [h]
  · simp only [Atomic.CMP_EX]
    split <;> simp [h]
  · simp only [Atomic.CMP_EX_WEAK]
    split <;> simp [h]
  · simp only [Atomic.new?, TYPE_SIZE]
    split_ifs with h0
    · by_cases h8 : L.size ≤ 8 <;> simp_all
    · simp_all

/-- C8: for every supported width, `fetch_add` and `fetch_sub` return the
value immediately prior to the operation and update the cell with
wraparound (modulo `2 ^ bits`, i.e. two's-complement) arithmetic; in
particular adding 1 to the unsigned maximum wraps to 0 and adding 1 to the
signed maximum bit pattern wraps to the signed minimum. -/
theorem fetch_add_sub_wrap (w : Width) (c : AtomicCell) (v : Nat)
    (o : MemOrdering) (hst : c.state < 2 ^ w.bits) :
    (Atomic.fetch_add w c v o).1 = c.state
    ∧ ((Atomic.fetch_add w c v o).2).state = (c.state + v) % 2 ^ w.bits
    ∧ (Atomic.fetch_sub w c v o).1 = c.state
    ∧ (((Atomic.fetch_sub w c v o).2).state + v) % 2 ^ w.bits = c.state
    ∧ ((Atomic.fetch_add w ⟨2 ^ w.bits - 1⟩ 1 o).2).state = 0
    ∧ toSigned w (((Atomic.fetch_add w ⟨2 ^ (w.bits - 1) - 1⟩ 1 o).2).state)
        = -(2 ^ (w.bits - 1) : Int) := by
  have hb : 0 < 2 ^ w.bits := Nat.pos_pow_of_pos _ (by norm_num)
  refine ⟨?_, rfl, ?_, ?_, ?_, ?_⟩
  · simp [Atomic.fetch_add, nativeFetchAdd, Nat.mod_eq_of_lt hst]
  · simp [Atomic.fetch_sub, nativeFetchSub, Nat.mod_eq_of_lt hst]
  · show ((c.state + (2 ^ w.bits - v % 2 ^ w.bits)) % 2 ^ w.bits + v) % 2 ^ w.bits
      = c.state
    obtain ⟨q, r, hqr, hrlt⟩ : ∃ q r, v = 2 ^ w.bits * q + r ∧ r < 2 ^ w.bits :=
      ⟨v / 2 ^ w.bits, v % 2 ^ w.bits, (Nat.div_add_mod v _).symm, Nat.mod_lt _ hb⟩
    subst hqr
    rw [Nat.mul_add_mod, Nat.mod_eq_of_lt hrlt, Nat.mod_add_mod,
      show c.state + (2 ^ w.bits - r) + (2 ^ w.bits * q + r)
          = c.state + 2 ^ w.bits * q + 2 ^ w.bits from by omega,
      Nat.add_mod_right, Nat.add_mul_mod_self_left, Nat.mod_eq_of_lt hst]
  · simp [Atomic.fetch_add, nativeFetchAdd]
    cases w <;> decide
  · simp [Atomic.fetch_add, nativeFetchAdd, toSigned]
    cases w <;> decide

theorem fetch_add_sub_wrap_witness :
    (Atomic.fetch_sub .w8 ⟨20⟩ 17 .Relaxed).1 = 20 :=
  (fetch_add_sub_wrap .w8 ⟨20⟩ 17 .Relaxed (by decide)).2.2.1

/-- C3: `fetch_update` implements exactly the documented loop: it first
loads the current value using the failure ordering; while the callback
returns a new value it attempts `compare_exchange_weak(prev, next,
set_order, fetch_order)`; a successful exchange returns `Ok` of the value
before the write; a failed exchange sets `prev` to the observed value and
reapplies the callback (so the callback is reapplied to every freshly
observed value and the store is attempted at most once per successful
application); if the callback returns nothing the loop stops with `Err`. -/
theorem fetch_update_loop_spec (w : Width) (so fo : MemOrdering)
    (cb : Nat → Option Nat) (c : AtomicCell) (sps : List Bool) (prev : Nat)
    (hfo : ¬(fo = .Release ∨ fo = .AcqRel)) (hst : c.state < 2 ^ w.bits) :
    (Atomic.fetch_update w so fo cb sps c
        = (Atomic.load w c fo).bind
            (fun p => Atomic.fetchUpdateGo w so fo cb sps p c))
    ∧ (Atomic.load w c fo = some c.state)
    ∧ (cb prev = none →
        Atomic.fetchUpdateGo w so fo cb sps prev c = some (.error prev, c))
    ∧ (∀ next sp rest, cb prev = some next →
        Atomic.fetchUpdateGo w so fo cb (sp :: rest) prev c
          = match Atomic.compare_exchange_weak w sp c prev next so fo with
            | none => none
            | some (.ok p, c') => some (.ok p, c')
            | some (.error np, c') =>
              Atomic.fetchUpdateGo w so fo cb rest np c')
    ∧ (∀ next rest, cb prev = some next → c.state = prev →
        Atomic.fetchUpdateGo w so fo cb (false :: rest) prev c
          = some (.ok prev, ⟨next % 2 ^ w.bits⟩))
    ∧ (∀ next rest, cb prev = some next →
        Atomic.fetchUpdateGo w so fo cb (true :: rest) prev c
          = Atomic.fetchUpdateGo w so fo cb rest c.state c) := by
  refine ⟨?_, ?_, ?_, ?_, ?_, ?_⟩
  · simp only [Atomic.fetch_update]
    cases h : Atomic.load w c fo <;> simp [h]
  · simp [Atomic.load, atomic_load, nativeLoad, hfo, Nat.mod_eq_of_lt hst]
  · intro h
    rw [Atomic.fetchUpdateGo, h]
  · intro next sp rest h
    rw [Atomic.fetchUpdateGo, h]
  · intro next rest h hprev
    subst hprev
    rw [Atomic.fetchUpdateGo, h]
    simp [Atomic.compare_exchange_weak, atomic_compare_exchange_weak,
      nativeCompareExchangeWeak, hfo, Nat.mod_eq_of_lt hst]
  · intro next rest h
    rw [Atomic.fetchUpdateGo, h]
    simp [Atomic.compare_exchange_weak, atomic_compare_exchange_weak,
      nativeCompareExchangeWeak, hfo, Nat.mod_eq_of_lt hst]

theorem fetch_update_loop_spec_witness :
    Atomic.fetchUpdateGo .w8 .SeqCst .SeqCst (fun _ => none) [] 7 ⟨7⟩
      = some (.error 7, ⟨7⟩) :=
  (fetch_update_loop_spec .w8 .SeqCst .SeqCst (fun _ => none) ⟨7⟩ [] 7
    (by decide) (by decide)).2.2.1 rfl

/-- C4: if the callback returns `None` for the value it is given,
`fetch_update` stops and returns `Err` carrying that value and performs no
write: in particular with a callback that always returns `None` the cell is
left unchanged and `Err` of the loaded value is returned. -/
theorem fetch_update_none_no_write (w : Width) (so fo : MemOrdering)
    (cb : Nat → Option Nat) (sps : List Bool) (c : AtomicCell)
    (hfo : ¬(fo = .Release ∨ fo = .AcqRel)) (hst : c.state < 2 ^ w.bits)
    (hcb : cb c.state = none) :
    Atomic.fetch_update w so fo cb sps c = some (.error c.state, c) := by
  simp only [Atomic.fetch_update, Atomic.load, atomic_load, nativeLoad, hfo,
    if_false, Nat.mod_eq_of_lt hst]
  rw [Atomic.fetchUpdateGo, hcb]

theorem fetch_update_none_no_write_witness :
    Atomic.fetch_update .w8 .SeqCst .SeqCst (fun _ => none) [] ⟨7⟩
      = some (.error 7, ⟨7⟩) :=
  fetch_update_none_no_write .w8 .SeqCst .SeqCst (fun _ => none) [] ⟨7⟩
    (by decide) (by decide) rfl

theorem dispatch_unresolved_witness :
    Atomic.LOAD ⟨3, 1⟩ = none ∧ Atomic.STORE ⟨3, 1⟩ = none
    ∧ Atomic.SWAP ⟨3, 1⟩ = none ∧ Atomic.CMP_EX ⟨3, 1⟩ = none
    ∧ Atomic.CMP_EX_WEAK ⟨3, 1⟩ = none
    ∧ (Atomic.new? ⟨3, 1⟩ 7 = some ⟨7⟩
        ↔ 0 < (Layout.mk 3 1).size ∧ (Layout.mk 3 1).size ≤ 8) :=
  dispatch_unresolved_for_unsupported_layout ⟨3, 1⟩ 7 (by decide)

/-- C9: under single-threaded execution (each `fetch_update` call scheduled
with `sch i` spurious weak-CAS failures before a clean attempt), a sequence
of `n` calls to `fetch_update(so, fo, |x| Some(x + 1))` produces the same
final cell value and the same sequence of returned previous values (modulo
the `Ok` wrapper) as a sequence of `n` calls to `fetch_add(1, o)`. -/
theorem fetch_update_inc_equiv_fetch_add (w : Width) (so fo o : MemOrdering)
    (sch : Nat → Nat) (n : Nat) (c : AtomicCell)
    (hfo : ¬(fo = .Release ∨ fo = .AcqRel)) (hst : c.state < 2 ^ w.bits) :
    iterFetchUpdateInc w so fo
        (fun i => List.replicate (sch i) true ++ [false]) n c
      = some ((iterFetchAddOne w o n c).1.map Except.ok,
          (iterFetchAddOne w o n c).2) := by
  induction n generalizing c sch with
  | zero => rfl
  | succ n ih =>
    rw [iterFetchUpdateInc, fetch_update_inc_eval w so fo (sch 0) c hfo hst]
    have hst' : (c.state + 1) % 2 ^ w.bits < 2 ^ w.bits :=
      Nat.mod_lt _ (Nat.pos_pow_of_pos _ (by norm_num))
    simp only [ih (fun j => sch (j + 1)) ⟨(c.state + 1) % 2 ^ w.bits⟩ hst']
    simp [iterFetchAddOne, Atomic.fetch_add, nativeFetchAdd,
      Nat.mod_eq_of_lt hst]

theorem fetch_update_inc_equiv_fetch_add_witness :
    iterFetchUpdateInc .w8 .SeqCst .SeqCst
        (fun i => List.replicate ((fun _ => 0) i) true ++ [false]) 2 ⟨7⟩
      = some ((iterFetchAddOne .w8 .Relaxed 2 ⟨7⟩).1.map Except.ok,
          (iterFetchAddOne .w8 .Relaxed 2 ⟨7⟩).2) :=
  fetch_update_inc_equiv_fetch_add .w8 .SeqCst .SeqCst .Relaxed (fun _ => 0) 2
    ⟨7⟩ (by decide) (by decide)

end Atomik
